import Mathlib

/-!
Shallow embedding of the `speculate` credential tool (Go): the `Lifetime`
and `Mfa` configuration objects of package `executors`, and the `Creds`
value type of package `creds` (construction from field maps and from the
environment, env-var serialization, and ARN derivations).  Strings are
Lean `String`s; Go maps are embedded as functions or association lists;
fallible operations return `Except`; methods that mutate their receiver
return the updated state explicitly.
-/

namespace Speculate

/-! ## Generic string machinery (Go `strings` / `sort` operations) -/

/-- Byte-wise (here: ASCII character-wise) lexicographic `≤` on character
lists, as used by Go string comparison. -/
def lexLe : List Char → List Char → Bool
  | [], _ => true
  | _ :: _, [] => false
  | a :: as, b :: bs =>
    if a.toNat < b.toNat then true
    else if b.toNat < a.toNat then false
    else lexLe as bs

/-- Go string `≤` (byte-wise lexicographic; all strings involved are ASCII). -/
def strLeB (a b : String) : Bool := lexLe a.data b.data

/-- Insert a string into a `strLeB`-sorted list, keeping it sorted. -/
def insertStr (s : String) : List String → List String
  | [] => [s]
  | t :: ts => if strLeB s t then s :: t :: ts else t :: insertStr s ts

/-- Insertion sort for strings; embeds Go `sort.Strings`. -/
def sortStrings : List String → List String
  | [] => []
  | s :: ss => insertStr s (sortStrings ss)

/-- Strip an expected leading pattern: `dropStart p s = some r` when
`s = p ++ r`, `none` when `p` is not a leading pattern of `s`. -/
def dropStart : List Char → List Char → Option (List Char)
  | [], s => some s
  | _ :: _, [] => none
  | p :: ps, c :: cs => if c = p then dropStart ps cs else none

/-- Embeds Go `strings.Contains`: does `pat` occur as a contiguous
sublist of `s`? -/
def containsSub : List Char → List Char → Bool
  | [], pat => pat.isEmpty
  | c :: rest, pat => pat.isPrefixOf (c :: rest) || containsSub rest pat

/-- Embeds Go `strings.Replace(s, pat, rep, 1)`: replace the leftmost
occurrence of `pat` in `s` by `rep` (identity when `pat` does not occur). -/
def replaceFirst : List Char → List Char → List Char → List Char
  | [], pat, rep => if pat.isPrefixOf ([] : List Char) then rep else []
  | c :: rest, pat, rep =>
    if pat.isPrefixOf (c :: rest) then rep ++ (c :: rest).drop pat.length
    else c :: replaceFirst rest pat rep

/-- Embeds Go `strings.Split(s, ":")`: split on every colon, keeping
empty segments; never returns the empty list. -/
def splitOnColon : List Char → List (List Char)
  | [] => [[]]
  | c :: rest =>
    if c = ':' then [] :: splitOnColon rest
    else
      match splitOnColon rest with
      | [] => [[c]]
      | h :: t => (c :: h) :: t

/-- First non-empty string of a list, or `""` when all are empty. -/
def firstNonempty : List String → String
  | [] => ""
  | s :: rest => if s = "" then firstNonempty rest else s

/-! ## The validation regexes of `executors/main.go`

`mfaCodeRegexString = ^\d{6}$` and
`mfaArnRegexString = ^arn:aws(?:-us-gov)?:iam::\d+:mfa/[\w+=,.@-]+$`,
implemented as executable checkers of exactly those anchored languages
(Go `\d` and `\w` are the ASCII classes `[0-9]` and `[0-9A-Za-z_]`). -/

/-- The character class `[\w+=,.@-]` of the MFA-ARN regex. -/
def isEntityChar (c : Char) : Bool :=
  c.isAlphanum || c = '_' || c = '+' || c = '=' || c = ',' || c = '.' ||
    c = '@' || c = '-'

/-- Matcher for `mfaCodeRegexString`: exactly six ASCII digits. -/
def mfaCodeMatch (s : String) : Bool :=
  s.data.length = 6 && s.data.all Char.isDigit

/-- Tail of the MFA-ARN regex after the `arn:aws(?:-us-gov)?:iam::`
literal: `\d+:mfa/[\w+=,.@-]+` (anchored at the end). -/
def mfaTailOk (l : List Char) : Bool :=
  let ds := l.takeWhile Char.isDigit
  let rest := l.dropWhile Char.isDigit
  !ds.isEmpty &&
    (match dropStart ":mfa/".data rest with
     | some ent => !ent.isEmpty && ent.all isEntityChar
     | none => false)

/-- Matcher for `mfaArnRegexString` (the code's pattern: the account
segment is `\d+`, one or more digits). -/
def mfaArnMatch (s : String) : Bool :=
  (match dropStart "arn:aws:iam::".data s.data with
   | some rest => mfaTailOk rest
   | none => false) ||
  (match dropStart "arn:aws-us-gov:iam::".data s.data with
   | some rest => mfaTailOk rest
   | none => false)

/-- Modelled from the spec: tail of the spec's MFA-ARN pattern, which
requires the account segment to be exactly twelve digits (`\d{12}`),
where the code's regex has `\d+`. -/
def mfaTailSpecOk (l : List Char) : Bool :=
  let ds := l.takeWhile Char.isDigit
  let rest := l.dropWhile Char.isDigit
  ds.length = 12 &&
    (match dropStart ":mfa/".data rest with
     | some ent => !ent.isEmpty && ent.all isEntityChar
     | none => false)

/-- Modelled from the spec: matcher for the spec's pattern
`arn:aws(-us-gov)?:iam::\d{12}:mfa/[\w+=,.@-]+`. -/
def mfaArnSpecMatch (s : String) : Bool :=
  (match dropStart "arn:aws:iam::".data s.data with
   | some rest => mfaTailSpecOk rest
   | none => false) ||
  (match dropStart "arn:aws-us-gov:iam::".data s.data with
   | some rest => mfaTailSpecOk rest
   | none => false)

/-! ## `Lifetime` (executors/main.go) -/

/-- The `Lifetime` object: stored requested session duration
(`0` means unset). -/
structure Lifetime where
  lifetimeInt : Int
deriving DecidableEq

/-- Embeds `Lifetime.SetLifetime`: rejects values other than `0` outside
`[900, 3600]`; otherwise stores the value.  Returns the result and the
post-state of the receiver. -/
def Lifetime.SetLifetime (l : Lifetime) (val : Int) : Except String Unit × Lifetime :=
  if val ≠ 0 ∧ (val < 900 ∨ val > 3600) then
    (Except.error "lifetime must be between 900 and 3600", l)
  else
    (Except.ok (), { lifetimeInt := val })

/-- Embeds `Lifetime.GetLifetime`: substitutes the default `3600` (also
into the stored field) when the stored value is `0`. -/
def Lifetime.GetLifetime (l : Lifetime) : Int × Lifetime :=
  if l.lifetimeInt = 0 then (3600, { lifetimeInt := 3600 })
  else (l.lifetimeInt, l)

/-! ## `Mfa` (executors/main.go)

The `mfaPrompt` field is an injected capability that only matters for
`GetMfaCode` and is not needed by the properties below; the embedded
state carries the three data fields. -/

/-- The `Mfa` configuration object. -/
structure Mfa where
  useMfa : Bool
  mfaSerial : String
  mfaCode : String
deriving DecidableEq

/-- Embeds `Mfa.SetMfa`: unconditionally stores the flag. -/
def Mfa.SetMfa (m : Mfa) (val : Bool) : Mfa := { m with useMfa := val }

/-- Embeds `Mfa.SetMfaSerial`: accepts `""` or a string matched by
`mfaArnRegex`; otherwise errors and leaves the receiver unchanged. -/
def Mfa.SetMfaSerial (m : Mfa) (val : String) : Except String Unit × Mfa :=
  if val = "" ∨ mfaArnMatch val then
    (Except.ok (), { m with mfaSerial := val })
  else
    (Except.error ("MFA Serial is malformed: " ++ val), m)

/-- Embeds `Mfa.SetMfaCode`: accepts `""` or a string matched by
`mfaCodeRegex`; otherwise errors and leaves the receiver unchanged. -/
def Mfa.SetMfaCode (m : Mfa) (val : String) : Except String Unit × Mfa :=
  if val = "" ∨ mfaCodeMatch val then
    (Except.ok (), { m with mfaCode := val })
  else
    (Except.error ("MFA Code is malformed: " ++ val), m)

/-- Embeds `Mfa.GetMfa`: flips `useMfa` to `true` when it is `false` but
a code is present, then returns the flag. -/
def Mfa.GetMfa (m : Mfa) : Bool × Mfa :=
  let m' := if m.useMfa = false ∧ m.mfaCode ≠ "" then { m with useMfa := true } else m
  (m'.useMfa, m')

/-- Embeds `Mfa.GetMfaSerial`.  The identity lookup
(`creds.Creds{}.MfaArn()`, a network round trip) is an oracle argument;
the third component counts how many lookups the call performed.  On a
failed lookup Go's multi-assignment stores the zero value `""` into
`mfaSerial` before returning the error. -/
def Mfa.GetMfaSerial (lookup : Except String String) (m : Mfa) :
    Except String String × Mfa × Nat :=
  if m.mfaSerial = "" then
    match lookup with
    | Except.error e => (Except.error e, { m with mfaSerial := "" }, 1)
    | Except.ok v => (Except.ok v, { m with mfaSerial := v }, 1)
  else
    (Except.ok m.mfaSerial, m, 0)

/-- The `Mfa` operations an executor may interleave between `GetMfa`
reads (state-changing ones reachable without touching `useMfa`
explicitly via `SetMfa`). -/
inductive MfaOp where
  | opGetMfa : MfaOp
  | opSetMfaCode : String → MfaOp
  | opSetMfaSerial : String → MfaOp

/-- State transition of a single `MfaOp`. -/
def applyMfaOp (m : Mfa) : MfaOp → Mfa
  | MfaOp.opGetMfa => (Mfa.GetMfa m).2
  | MfaOp.opSetMfaCode s => (Mfa.SetMfaCode m s).2
  | MfaOp.opSetMfaSerial s => (Mfa.SetMfaSerial m s).2

/-- Run a sequence of `Mfa` operations. -/
def runMfaOps (m : Mfa) (ops : List MfaOp) : Mfa := ops.foldl applyMfaOp m

/-! ## `Creds` (package creds) -/

/-- The `Creds` value type. -/
structure Creds where
  AccessKey : String
  SecretKey : String
  SessionToken : String
  Region : String
deriving DecidableEq

/-- The required keys checked by `creds.New`, in source order. -/
def requiredKeys : List String := ["AccessKey", "SecretKey", "SessionToken"]

/-- The `elem, ok := argCreds[key]; !ok || elem == ""` loop of
`creds.New`: the first required key that is absent or empty, in order. -/
def firstMissing (m : String → Option String) : List String → Option String
  | [] => none
  | k :: ks =>
    match m k with
    | none => some k
    | some v => if v = "" then some k else firstMissing m ks

/-- Go map read `argCreds[key]` outside the two-valued form: absent keys
read as `""`. -/
def lookupField (m : String → Option String) (k : String) : String :=
  (m k).getD ""

/-- Embeds `creds.New`: validates the three required keys in order and
builds the `Creds` value (Region is optional and defaults to `""`). -/
def credsNew (m : String → Option String) : Except String Creds :=
  match firstMissing m requiredKeys with
  | some k => Except.error ("missing required key for Creds: " ++ k)
  | none => Except.ok {
      AccessKey := lookupField m "AccessKey"
      SecretKey := lookupField m "SecretKey"
      SessionToken := lookupField m "SessionToken"
      Region := lookupField m "Region" }

/-- The entries of `Translations["envvar"]`.  In Go this is a map whose
iteration order is unspecified; this list fixes one enumeration of its
entries, and order-sensitive results are stated for arbitrary
permutations of it. -/
def envvarTranslations : List (String × String) :=
  [("AWS_ACCESS_KEY_ID", "AccessKey"),
   ("AWS_SECRET_ACCESS_KEY", "SecretKey"),
   ("AWS_SESSION_TOKEN", "SessionToken"),
   ("AWS_SECURITY_TOKEN", "SessionToken"),
   ("AWS_DEFAULT_REGION", "Region")]

/-- Pointwise update of an embedded Go map. -/
def updateMap (m : String → String) (k v : String) : String → String :=
  fun x => if x = k then v else m x

/-- The loop body of `creds.NewFromEnv`: walk the translation entries in
iteration order, and for each `(envKey, field)` store `env envKey` into
the accumulator at `field` when the accumulator still holds `""` there. -/
def fillEnvCreds (env : String → String) : List (String × String) → (String → String) → String → String
  | [], acc => acc
  | kv :: rest, acc =>
    fillEnvCreds env rest
      (if acc kv.2 = "" then updateMap acc kv.2 (env kv.1) else acc)

/-- Embeds `creds.NewFromEnv` for a given environment and a given
iteration order of `Translations["envvar"]`: fill the field map from the
environment, then delegate to `creds.New`. -/
def NewFromEnvOrdered (env : String → String) (order : List (String × String)) :
    Except String Creds :=
  credsNew (fun k => some (fillEnvCreds env order (fun _ => "") k))

/-- Embeds `Creds.toMap`: the field map of a `Creds` value (absent keys
read as `""`, matching Go map reads). -/
def Creds.toMap (c : Creds) (k : String) : String :=
  if k = "AccessKey" then c.AccessKey
  else if k = "SecretKey" then c.SecretKey
  else if k = "SessionToken" then c.SessionToken
  else if k = "Region" then c.Region
  else ""

/-- Embeds `Creds.Translate`: rename/projection of the field map through
a dictionary of `(destKey, sourceField)` pairs. -/
def Creds.Translate (c : Creds) (dictionary : List (String × String)) :
    List (String × String) :=
  dictionary.map (fun kv => (kv.1, c.toMap kv.2))

/-- Embeds `Creds.ToEnvVars`: translate through `Translations["envvar"]`,
keep the non-empty values as `export KEY=VALUE` lines, and sort them
(Go iterates the translated map in unspecified order and sorts at the
end, so the result does not depend on that order). -/
def Creds.ToEnvVars (c : Creds) : List String :=
  sortStrings
    (((c.Translate envvarTranslations).filter (fun kv => kv.2 ≠ "")).map
      (fun kv => "export " ++ kv.1 ++ "=" ++ kv.2))

/-- Embeds `Creds.MfaArn` as a function of the caller ARN returned by the
identity lookup (`identity()` is an external RPC; its `Arn` field is the
argument): rewrite the first `:user/` to `:mfa/`, failing when the ARN
has no `:user/` segment. -/
def MfaArn (identityArn : String) : Except String String :=
  if containsSub identityArn.data ":user/".data then
    Except.ok (String.mk (replaceFirst identityArn.data ":user/".data ":mfa/".data))
  else
    Except.error ("failed to parse MFA ARN for non-user: " ++ identityArn)

/-- Embeds `Creds.partition` as a function of the caller ARN: split on
`:` and take the element at index 1.  The Go code indexes unguardedly
(`pieces[1]`); the embedding guards the access with `Option`, `none`
standing for the out-of-range (panic) branch. -/
def partitionGo (identityArn : String) : Option String :=
  ((splitOnColon identityArn.data).get? 1).map String.mk

end Speculate

namespace Speculate

/-! ## Supporting lemmas: lexicographic order and insertion sort -/

theorem lexLe_cons (x y : Char) (as bs : List Char) :
    lexLe (x :: as) (y :: bs) = true ↔
      x.toNat < y.toNat ∨ (x.toNat = y.toNat ∧ lexLe as bs = true) := by
  by_cases h1 : x.toNat < y.toNat
  · simp [lexLe, h1]
  · by_cases h2 : y.toNat < x.toNat
    · simp only [lexLe, if_neg h1, if_pos h2]
      constructor
      · intro h; exact absurd h (by simp)
      · rintro (h | ⟨h, -⟩) <;> omega
    · have hxy : x.toNat = y.toNat := by omega
      simp [lexLe, h1, h2, hxy]

theorem lexLe_total : ∀ (a b : List Char), lexLe a b = true ∨ lexLe b a = true
  | [], _ => Or.inl rfl
  | _ :: _, [] => Or.inr rfl
  | x :: as, y :: bs => by
    rw [lexLe_cons, lexLe_cons]
    rcases Nat.lt_trichotomy x.toNat y.toNat with h | h | h
    · exact Or.inl (Or.inl h)
    · rcases lexLe_total as bs with ih | ih
      · exact Or.inl (Or.inr ⟨h, ih⟩)
      · exact Or.inr (Or.inr ⟨h.symm, ih⟩)
    · exact Or.inr (Or.inl h)

theorem lexLe_trans : ∀ {a b c : List Char},
    lexLe a b = true → lexLe b c = true → lexLe a c = true
  | [], _, _, _, _ => rfl
  | _ :: _, [], _, hab, _ => by simp [lexLe] at hab
  | _ :: _, _ :: _, [], _, hbc => by simp [lexLe] at hbc
  | x :: as, y :: bs, z :: cs, hab, hbc => by
    rw [lexLe_cons] at hab hbc ⊢
    rcases hab with h1 | ⟨h1, hab'⟩ <;> rcases hbc with h2 | ⟨h2, hbc'⟩
    · exact Or.inl (by omega)
    · exact Or.inl (by omega)
    · exact Or.inl (by omega)
    · exact Or.inr ⟨by omega, lexLe_trans hab' hbc'⟩

theorem mem_insertStr (x s : String) : ∀ (l : List String),
    x ∈ insertStr s l ↔ x = s ∨ x ∈ l
  | [] => by simp [insertStr]
  | t :: ts => by
    unfold insertStr
    split_ifs with h
    · simp
    · rw [List.mem_cons, List.mem_cons, mem_insertStr x s ts]
      tauto

theorem pairwise_insertStr (s : String) : ∀ (l : List String),
    l.Pairwise (fun a b => strLeB a b = true) →
    (insertStr s l).Pairwise (fun a b => strLeB a b = true)
  | [], _ => by simp [insertStr]
  | t :: ts, hl => by
    rcases List.pairwise_cons.mp hl with ⟨ht, hts⟩
    unfold insertStr
    split_ifs with h
    · refine List.pairwise_cons.mpr ⟨?_, hl⟩
      intro x hx
      rcases List.mem_cons.mp hx with rfl | hx
      · exact h
      · exact lexLe_trans h (ht x hx)
    · refine List.pairwise_cons.mpr ⟨?_, pairwise_insertStr s ts hts⟩
      intro x hx
      rcases (mem_insertStr x s ts).mp hx with rfl | hx
      · rcases lexLe_total x.data t.data with h' | h'
        · exact absurd h' h
        · exact h'
      · exact ht x hx

theorem pairwise_sortStrings : ∀ (l : List String),
    (sortStrings l).Pairwise (fun a b => strLeB a b = true)
  | [] => List.Pairwise.nil
  | s :: ss => pairwise_insertStr s (sortStrings ss) (pairwise_sortStrings ss)

theorem mem_sortStrings (x : String) : ∀ (l : List String),
    x ∈ sortStrings l ↔ x ∈ l
  | [] => Iff.rfl
  | s :: ss => by
    unfold sortStrings
    rw [mem_insertStr x s (sortStrings ss), mem_sortStrings x ss]
    simp

/-! ## C2: lifetime validation and default -/

/-- C2: `SetLifetime v` succeeds exactly when `v = 0` or
`900 ≤ v ≤ 3600`, failing with the out-of-range error otherwise (and
storing `v` on success); `GetLifetime` returns `3600` when the stored
value is `0` and the stored value otherwise. -/
theorem lifetime_spec (l : Lifetime) (v : Int) :
    ((Lifetime.SetLifetime l v).1 = Except.ok () ↔ (v = 0 ∨ (900 ≤ v ∧ v ≤ 3600))) ∧
    (¬(v = 0 ∨ (900 ≤ v ∧ v ≤ 3600)) →
      (Lifetime.SetLifetime l v).1 = Except.error "lifetime must be between 900 and 3600") ∧
    ((Lifetime.SetLifetime l v).1 = Except.ok () → (Lifetime.SetLifetime l v).2 = ⟨v⟩) ∧
    (l.lifetimeInt = 0 → (Lifetime.GetLifetime l).1 = 3600) ∧
    (l.lifetimeInt ≠ 0 → (Lifetime.GetLifetime l).1 = l.lifetimeInt) := by
  refine ⟨⟨?_, ?_⟩, ?_, ?_, ?_, ?_⟩
  · intro hok
    unfold Lifetime.SetLifetime at hok
    split_ifs at hok with h
    all_goals first | omega | simp at hok
  · intro hv
    unfold Lifetime.SetLifetime
    split_ifs with h
    all_goals first | rfl | (exfalso; omega)
  · intro hbad
    unfold Lifetime.SetLifetime
    split_ifs with h
    all_goals first | rfl | (exfalso; omega)
  · intro hok
    unfold Lifetime.SetLifetime at hok ⊢
    split_ifs at hok ⊢ with h
    all_goals first | rfl | simp at hok
  · intro h0
    unfold Lifetime.GetLifetime
    rw [if_pos h0]
  · intro h0
    unfold Lifetime.GetLifetime
    rw [if_neg h0]

/-- C2 witness: `SetLifetime 1000` succeeds on a fresh `Lifetime`, and
`GetLifetime` of the fresh (zero) state returns `3600`. -/
theorem lifetime_spec_witness :
    (Lifetime.SetLifetime ⟨0⟩ 1000).1 = Except.ok () ∧
    (Lifetime.GetLifetime ⟨0⟩).1 = 3600 :=
  ⟨(lifetime_spec ⟨0⟩ 1000).1.mpr (Or.inr (by norm_num)),
   (lifetime_spec ⟨0⟩ 1000).2.2.2.1 rfl⟩

/-! ## C9: failing setters do not modify the state -/

/-- C9: when `SetLifetime`, `SetMfaSerial` or `SetMfaCode` rejects its
argument, the returned state equals the state before the call. -/
theorem failed_setters_preserve_state (l : Lifetime) (m : Mfa) (v : Int) (s c : String) :
    (∀ e, (Lifetime.SetLifetime l v).1 = Except.error e → (Lifetime.SetLifetime l v).2 = l) ∧
    (∀ e, (Mfa.SetMfaSerial m s).1 = Except.error e → (Mfa.SetMfaSerial m s).2 = m) ∧
    (∀ e, (Mfa.SetMfaCode m c).1 = Except.error e → (Mfa.SetMfaCode m c).2 = m) := by
  refine ⟨?_, ?_, ?_⟩
  · intro e he
    unfold Lifetime.SetLifetime at he ⊢
    split_ifs at he ⊢
    all_goals first | rfl | simp at he
  · intro e he
    unfold Mfa.SetMfaSerial at he ⊢
    split_ifs at he ⊢
    all_goals first | rfl | simp at he
  · intro e he
    unfold Mfa.SetMfaCode at he ⊢
    split_ifs at he ⊢
    all_goals first | rfl | simp at he

/-- C9 witness: the three setters, applied to concrete malformed inputs
(`1`, `"bogus"`, `"12"`), return errors and leave the concrete states
unchanged. -/
theorem failed_setters_preserve_state_witness :
    (Lifetime.SetLifetime ⟨0⟩ 1).2 = ⟨0⟩ ∧
    (Mfa.SetMfaSerial ⟨false, "", ""⟩ "bogus").2 = ⟨false, "", ""⟩ ∧
    (Mfa.SetMfaCode ⟨false, "", ""⟩ "12").2 = ⟨false, "", ""⟩ :=
  ⟨(failed_setters_preserve_state ⟨0⟩ ⟨false, "", ""⟩ 1 "bogus" "12").1
      "lifetime must be between 900 and 3600" (by rfl),
   (failed_setters_preserve_state ⟨0⟩ ⟨false, "", ""⟩ 1 "bogus" "12").2.1
      ("MFA Serial is malformed: " ++ "bogus") (by rfl),
   (failed_setters_preserve_state ⟨0⟩ ⟨false, "", ""⟩ 1 "bogus" "12").2.2
      ("MFA Code is malformed: " ++ "12") (by rfl)⟩

/-! ## C10: code presence makes `useMfa` stick -/

theorem getMfa_of_code {m : Mfa} (h : m.mfaCode ≠ "") :
    (Mfa.GetMfa m).1 = true ∧ (Mfa.GetMfa m).2.useMfa = true := by
  unfold Mfa.GetMfa
  split_ifs with hc
  · exact ⟨rfl, rfl⟩
  · have hu : m.useMfa = true := by
      cases hu : m.useMfa
      · exact absurd ⟨hu, h⟩ hc
      · rfl
    exact ⟨hu, hu⟩

theorem getMfa_of_useMfa {m : Mfa} (h : m.useMfa = true) : (Mfa.GetMfa m).1 = true := by
  unfold Mfa.GetMfa
  split_ifs with hc
  · rfl
  · exact h

theorem setMfaCode_useMfa (m : Mfa) (s : String) :
    (Mfa.SetMfaCode m s).2.useMfa = m.useMfa := by
  unfold Mfa.SetMfaCode
  split_ifs <;> rfl

theorem setMfaSerial_useMfa (m : Mfa) (s : String) :
    (Mfa.SetMfaSerial m s).2.useMfa = m.useMfa := by
  unfold Mfa.SetMfaSerial
  split_ifs <;> rfl

theorem applyMfaOp_useMfa {m : Mfa} (h : m.useMfa = true) (op : MfaOp) :
    (applyMfaOp m op).useMfa = true := by
  cases op with
  | opGetMfa =>
    unfold applyMfaOp Mfa.GetMfa
    split_ifs with hc
    · rfl
    · exact h
  | opSetMfaCode s => rw [applyMfaOp, setMfaCode_useMfa]; exact h
  | opSetMfaSerial s => rw [applyMfaOp, setMfaSerial_useMfa]; exact h

theorem runMfaOps_useMfa : ∀ (ops : List MfaOp) {m : Mfa}, m.useMfa = true →
    (runMfaOps m ops).useMfa = true
  | [], _, h => h
  | op :: rest, m, h =>
    runMfaOps_useMfa rest (m := applyMfaOp m op) (applyMfaOp_useMfa h op)

/-- C10: reading `GetMfa` while a code is stored returns `true` and sets
`useMfa`; once `useMfa` is `true` it survives any further
`GetMfa`/`SetMfaCode`/`SetMfaSerial` activity, so `GetMfa` keeps
returning `true` even after the code is cleared with `SetMfaCode ""`. -/
theorem getMfa_sticky :
    (∀ m : Mfa, m.mfaCode ≠ "" →
      (Mfa.GetMfa m).1 = true ∧ (Mfa.GetMfa m).2.useMfa = true) ∧
    (∀ (m : Mfa) (ops : List MfaOp), m.useMfa = true →
      (runMfaOps m ops).useMfa = true) ∧
    (∀ (m : Mfa) (ops : List MfaOp), m.useMfa = true →
      (Mfa.GetMfa (runMfaOps m ops)).1 = true) ∧
    (∀ m : Mfa, m.mfaCode ≠ "" →
      (Mfa.GetMfa (Mfa.SetMfaCode (Mfa.GetMfa m).2 "").2).1 = true) :=
  ⟨fun _ h => getMfa_of_code h,
   fun _ ops h => runMfaOps_useMfa ops h,
   fun _ ops h => getMfa_of_useMfa (runMfaOps_useMfa ops h),
   fun m h => getMfa_of_useMfa
     (by rw [setMfaCode_useMfa]; exact (getMfa_of_code h).2)⟩

/-- C10 witness: starting from `useMfa = false` with code `"123456"`,
`GetMfa` returns `true`, and still returns `true` after the code is
cleared with `SetMfaCode ""`. -/
theorem getMfa_sticky_witness :
    (Mfa.GetMfa ⟨false, "", "123456"⟩).1 = true ∧
    (Mfa.GetMfa (Mfa.SetMfaCode (Mfa.GetMfa ⟨false, "", "123456"⟩).2 "").2).1 = true :=
  ⟨(getMfa_sticky.1 ⟨false, "", "123456"⟩ (by decide)).1,
   getMfa_sticky.2.2.2 ⟨false, "", "123456"⟩ (by decide)⟩

/-! ## Supporting lemmas: the MFA-ARN matchers -/

theorem dropStart_eq_some : ∀ (p s r : List Char), dropStart p s = some r ↔ s = p ++ r
  | [], s, r => by simp [dropStart]
  | p :: ps, [], r => by simp [dropStart]
  | p :: ps, c :: cs, r => by
    unfold dropStart
    split_ifs with h
    · rw [dropStart_eq_some ps cs r]
      subst h
      simp
    · simp [h]

theorem span_append (p : Char → Bool) : ∀ (ds rest : List Char),
    (∀ c ∈ ds, p c = true) → (∀ c, rest.head? = some c → p c = false) →
    (ds ++ rest).takeWhile p = ds ∧ (ds ++ rest).dropWhile p = rest
  | [], rest, _, h2 => by
    cases rest with
    | nil => simp
    | cons c r =>
      have hc := h2 c rfl
      simp [List.takeWhile_cons, List.dropWhile_cons, hc]
  | d :: ds, rest, h1, h2 => by
    have hd : p d = true := h1 d (List.mem_cons_self d ds)
    have ih := span_append p ds rest (fun c hc => h1 c (List.mem_cons_of_mem d hc)) h2
    simp [List.takeWhile_cons, List.dropWhile_cons, hd, ih.1, ih.2]

theorem mfaTailOk_iff (l : List Char) :
    mfaTailOk l = true ↔
      ∃ ds ent : List Char,
        l = ds ++ ":mfa/".data ++ ent ∧ ds ≠ [] ∧
        (∀ c ∈ ds, Char.isDigit c = true) ∧ ent ≠ [] ∧
        (∀ c ∈ ent, isEntityChar c = true) := by
  constructor
  · intro h
    unfold mfaTailOk at h
    rw [Bool.and_eq_true] at h
    obtain ⟨h1, h2⟩ := h
    rcases hm : dropStart ":mfa/".data (l.dropWhile Char.isDigit) with _ | ent
    · rw [hm] at h2; exact absurd h2 (by simp)
    · rw [hm, Bool.and_eq_true] at h2
      refine ⟨l.takeWhile Char.isDigit, ent, ?_, ?_, ?_, ?_, ?_⟩
      · rw [List.append_assoc, ← (dropStart_eq_some _ _ _).mp hm,
          List.takeWhile_append_dropWhile]
      · intro hnil
        rw [hnil] at h1
        exact absurd h1 (by simp)
      · exact fun c hc => List.mem_takeWhile_imp hc
      · intro hnil
        rw [hnil] at h2
        exact absurd h2.1 (by simp)
      · exact fun c hc => List.all_eq_true.mp h2.2 c hc
  · rintro ⟨ds, ent, rfl, hds, hdig, hent, hcls⟩
    have hhead : ∀ c, (":mfa/".data ++ ent).head? = some c → Char.isDigit c = false := by
      intro c hc
      have : c = ':' := by
        have hh : (":mfa/".data ++ ent).head? = some ':' := rfl
        rw [hh] at hc
        exact (Option.some_injective _ hc).symm
      rw [this]
      decide
    have hspan := span_append Char.isDigit ds (":mfa/".data ++ ent) hdig hhead
    simp only [mfaTailOk]
    rw [List.append_assoc, hspan.1, hspan.2,
      (dropStart_eq_some ":mfa/".data (":mfa/".data ++ ent) ent).mpr rfl]
    simp [hds, hent, List.all_eq_true.mpr hcls]

theorem mfaArnMatch_iff (s : String) :
    mfaArnMatch s = true ↔
      ∃ (gov : Bool) (ds ent : List Char),
        s.data = (if gov then "arn:aws-us-gov:iam::" else "arn:aws:iam::").data
            ++ ds ++ ":mfa/".data ++ ent ∧
        ds ≠ [] ∧ (∀ c ∈ ds, Char.isDigit c = true) ∧
        ent ≠ [] ∧ (∀ c ∈ ent, isEntityChar c = true) := by
  constructor
  · intro h
    unfold mfaArnMatch at h
    rw [Bool.or_eq_true] at h
    rcases h with h | h
    · rcases hm : dropStart "arn:aws:iam::".data s.data with _ | rest
      · rw [hm] at h; exact absurd h (by simp)
      · rw [hm] at h
        obtain ⟨ds, ent, hrest, hp⟩ := (mfaTailOk_iff rest).mp h
        refine ⟨false, ds, ent, ?_, hp⟩
        rw [(dropStart_eq_some _ _ _).mp hm, hrest]
        simp
    · rcases hm : dropStart "arn:aws-us-gov:iam::".data s.data with _ | rest
      · rw [hm] at h; exact absurd h (by simp)
      · rw [hm] at h
        obtain ⟨ds, ent, hrest, hp⟩ := (mfaTailOk_iff rest).mp h
        refine ⟨true, ds, ent, ?_, hp⟩
        rw [(dropStart_eq_some _ _ _).mp hm, hrest]
        simp
  · rintro ⟨gov, ds, ent, hs, hp⟩
    unfold mfaArnMatch
    rw [Bool.or_eq_true]
    cases gov with
    | false =>
      left
      rw [(dropStart_eq_some "arn:aws:iam::".data s.data
          (ds ++ ":mfa/".data ++ ent)).mpr (by simpa using hs)]
      exact (mfaTailOk_iff _).mpr ⟨ds, ent, rfl, hp⟩
    | true =>
      right
      rw [(dropStart_eq_some "arn:aws-us-gov:iam::".data s.data
          (ds ++ ":mfa/".data ++ ent)).mpr (by simpa using hs)]
      exact (mfaTailOk_iff _).mpr ⟨ds, ent, rfl, hp⟩

/-! ## C1: MFA serial validation -/

/-- C1 (amended): `SetMfaSerial s` succeeds, storing `s`, exactly when
`s` is empty or matches the code's pattern
`arn:aws(-us-gov)?:iam::\d+:mfa/[\w+=,.@-]+` — whose account segment is
one or more digits, not necessarily twelve — and rejects every other
string with the malformed-serial error; and matching that pattern means
precisely decomposing into the `arn` literal, a non-empty digit
segment, the `:mfa/` literal and a non-empty entity-class segment. -/
theorem setMfaSerial_spec :
    (∀ (m : Mfa) (s : String),
      ((Mfa.SetMfaSerial m s).1 = Except.ok () ↔ (s = "" ∨ mfaArnMatch s = true)) ∧
      ((Mfa.SetMfaSerial m s).1 = Except.ok () → (Mfa.SetMfaSerial m s).2.mfaSerial = s) ∧
      (¬(s = "" ∨ mfaArnMatch s = true) →
        (Mfa.SetMfaSerial m s).1 = Except.error ("MFA Serial is malformed: " ++ s))) ∧
    (∀ s : String, mfaArnMatch s = true ↔
      ∃ (gov : Bool) (ds ent : List Char),
        s.data = (if gov then "arn:aws-us-gov:iam::" else "arn:aws:iam::").data
            ++ ds ++ ":mfa/".data ++ ent ∧
        ds ≠ [] ∧ (∀ c ∈ ds, Char.isDigit c = true) ∧
        ent ≠ [] ∧ (∀ c ∈ ent, isEntityChar c = true)) := by
  refine ⟨fun m s => ⟨⟨?_, ?_⟩, ?_, ?_⟩, mfaArnMatch_iff⟩
  · intro hok
    unfold Mfa.SetMfaSerial at hok
    split_ifs at hok with h
    all_goals first | exact h | simp at hok
  · intro h
    unfold Mfa.SetMfaSerial
    rw [if_pos h]
  · intro hok
    unfold Mfa.SetMfaSerial at hok ⊢
    split_ifs at hok ⊢ with h
    all_goals first | rfl | simp at hok
  · intro h
    unfold Mfa.SetMfaSerial
    rw [if_neg h]

/-- C1 witness: a fully-formed serial with a twelve-digit account is
accepted and stored. -/
theorem setMfaSerial_spec_witness :
    (Mfa.SetMfaSerial ⟨false, "", ""⟩ "arn:aws:iam::123456789012:mfa/alice").1 =
      Except.ok () ∧
    (Mfa.SetMfaSerial ⟨false, "", ""⟩ "arn:aws:iam::123456789012:mfa/alice").2.mfaSerial =
      "arn:aws:iam::123456789012:mfa/alice" :=
  ⟨(setMfaSerial_spec.1 ⟨false, "", ""⟩ "arn:aws:iam::123456789012:mfa/alice").1.mpr
      (Or.inr (by decide)),
   (setMfaSerial_spec.1 ⟨false, "", ""⟩ "arn:aws:iam::123456789012:mfa/alice").2.1
      ((setMfaSerial_spec.1 ⟨false, "", ""⟩ "arn:aws:iam::123456789012:mfa/alice").1.mpr
        (Or.inr (by decide)))⟩

/-- C1 counterexample: `SetMfaSerial` accepts
`arn:aws:iam::1:mfa/a`, whose account segment is a single digit, while
the spec's pattern (account segment exactly twelve digits) rejects that
string and the claim would require the call to fail. -/
theorem setMfaSerial_accepts_short_account :
    (Mfa.SetMfaSerial ⟨false, "", ""⟩ "arn:aws:iam::1:mfa/a").1 = Except.ok () ∧
    ("arn:aws:iam::1:mfa/a" : String) ≠ "" ∧
    mfaArnSpecMatch "arn:aws:iam::1:mfa/a" = false :=
  ⟨by rfl, by decide, by decide⟩

/-! ## C3: the validating constructor `creds.New` -/

theorem firstMissing_cons (m : String → Option String) (k : String) (ks : List String) :
    firstMissing m (k :: ks) =
      if lookupField m k = "" then some k else firstMissing m ks := by
  rcases hm : m k with _ | v
  · simp [firstMissing, lookupField, hm]
  · simp [firstMissing, lookupField, hm]

/-- C3: `creds.New` succeeds exactly when `AccessKey`, `SecretKey` and
`SessionToken` are present and non-empty (absent keys read as empty),
returning a `Creds` carrying those values plus the map's `Region`;
otherwise it fails naming the first absent-or-empty required key in the
order AccessKey, SecretKey, SessionToken. -/
theorem credsNew_spec (m : String → Option String) :
    (lookupField m "AccessKey" ≠ "" → lookupField m "SecretKey" ≠ "" →
      lookupField m "SessionToken" ≠ "" →
      credsNew m = Except.ok ⟨lookupField m "AccessKey", lookupField m "SecretKey",
        lookupField m "SessionToken", lookupField m "Region"⟩) ∧
    (lookupField m "AccessKey" = "" →
      credsNew m = Except.error "missing required key for Creds: AccessKey") ∧
    (lookupField m "AccessKey" ≠ "" → lookupField m "SecretKey" = "" →
      credsNew m = Except.error "missing required key for Creds: SecretKey") ∧
    (lookupField m "AccessKey" ≠ "" → lookupField m "SecretKey" ≠ "" →
      lookupField m "SessionToken" = "" →
      credsNew m = Except.error "missing required key for Creds: SessionToken") := by
  refine ⟨?_, ?_, ?_, ?_⟩
  · intro h1 h2 h3
    have hnone : firstMissing m requiredKeys = none := by
      simp only [requiredKeys, firstMissing_cons, if_neg h1, if_neg h2, if_neg h3]
      rfl
    simp only [credsNew, hnone]
  · intro h1
    have hsome : firstMissing m requiredKeys = some "AccessKey" := by
      simp only [requiredKeys, firstMissing_cons, if_pos h1]
    simp only [credsNew, hsome]
    rfl
  · intro h1 h2
    have hsome : firstMissing m requiredKeys = some "SecretKey" := by
      simp only [requiredKeys, firstMissing_cons, if_neg h1, if_pos h2]
    simp only [credsNew, hsome]
    rfl
  · intro h1 h2 h3
    have hsome : firstMissing m requiredKeys = some "SessionToken" := by
      simp only [requiredKeys, firstMissing_cons, if_neg h1, if_neg h2, if_pos h3]
    simp only [credsNew, hsome]
    rfl

/-- C3 witness: a complete concrete map constructs the expected value;
a map with an empty `SecretKey` fails naming `SecretKey`. -/
theorem credsNew_spec_witness :
    credsNew (fun k => if k = "AccessKey" then some "AK"
        else if k = "SecretKey" then some "SK"
        else if k = "SessionToken" then some "ST" else none) =
      Except.ok ⟨"AK", "SK", "ST", ""⟩ ∧
    credsNew (fun k => if k = "AccessKey" then some "AK"
        else if k = "SecretKey" then some "" else some "ST") =
      Except.error "missing required key for Creds: SecretKey" :=
  ⟨(credsNew_spec (fun k => if k = "AccessKey" then some "AK"
        else if k = "SecretKey" then some "SK"
        else if k = "SessionToken" then some "ST" else none)).1
      (by decide) (by decide) (by decide),
   (credsNew_spec (fun k => if k = "AccessKey" then some "AK"
        else if k = "SecretKey" then some "" else some "ST")).2.2.1
      (by decide) (by decide)⟩

/-! ## C4: `creds.NewFromEnv` and the aliased environment variables -/

theorem fillEnvCreds_eq (env : String → String) :
    ∀ (l : List (String × String)) (acc : String → String) (f : String),
    fillEnvCreds env l acc f =
      if acc f = "" then
        firstNonempty ((l.filter (fun kv => kv.2 = f)).map (fun kv => env kv.1))
      else acc f
  | [], acc, f => by
    unfold fillEnvCreds
    split_ifs with h
    · simp [firstNonempty, h]
    · rfl
  | kv :: rest, acc, f => by
    unfold fillEnvCreds
    by_cases hg : acc kv.2 = ""
    · rw [if_pos hg, fillEnvCreds_eq env rest _ f]
      by_cases hf : kv.2 = f
      · subst hf
        have hupd : updateMap acc kv.2 (env kv.1) kv.2 = env kv.1 := by
          simp [updateMap]
        rw [hupd, if_pos hg]
        by_cases henv : env kv.1 = ""
        · simp [List.filter_cons, firstNonempty, henv]
        · simp [List.filter_cons, firstNonempty, henv]
      · have hupd : updateMap acc kv.2 (env kv.1) f = acc f := by
          unfold updateMap
          rw [if_neg (fun h => hf h.symm)]
        rw [hupd]
        simp [List.filter_cons, hf]
    · rw [if_neg hg, fillEnvCreds_eq env rest acc f]
      by_cases hf : kv.2 = f
      · subst hf
        rw [if_neg hg, if_neg hg]
      · simp [List.filter_cons, hf]

/-- C4 (amended): for every environment and every iteration order of the
translation entries, `NewFromEnv` gives each field the first non-empty
value among its source variables in that order, then delegates to
`creds.New`; because Go map iteration order is unspecified, which of two
aliased non-empty sources wins is not deterministic. -/
theorem newFromEnv_first_nonempty (env : String → String) (order : List (String × String)) :
    NewFromEnvOrdered env order =
      credsNew (fun f => some (firstNonempty
        ((order.filter (fun kv => kv.2 = f)).map (fun kv => env kv.1)))) := by
  unfold NewFromEnvOrdered
  congr 1
  funext k
  rw [fillEnvCreds_eq]
  simp

/-- C4 counterexample: with both `AWS_SESSION_TOKEN=A` and
`AWS_SECURITY_TOKEN=B` set, two iteration orders of the very same
translation map (a permutation of each other) produce different
`SessionToken` results, so no deterministic source wins. -/
theorem newFromEnv_order_dependent :
    List.Perm envvarTranslations
      [("AWS_ACCESS_KEY_ID", "AccessKey"),
       ("AWS_SECRET_ACCESS_KEY", "SecretKey"),
       ("AWS_SECURITY_TOKEN", "SessionToken"),
       ("AWS_SESSION_TOKEN", "SessionToken"),
       ("AWS_DEFAULT_REGION", "Region")] ∧
    NewFromEnvOrdered
      (fun k => if k = "AWS_ACCESS_KEY_ID" then "AK"
        else if k = "AWS_SECRET_ACCESS_KEY" then "SK"
        else if k = "AWS_SESSION_TOKEN" then "A"
        else if k = "AWS_SECURITY_TOKEN" then "B" else "")
      envvarTranslations = Except.ok ⟨"AK", "SK", "A", ""⟩ ∧
    NewFromEnvOrdered
      (fun k => if k = "AWS_ACCESS_KEY_ID" then "AK"
        else if k = "AWS_SECRET_ACCESS_KEY" then "SK"
        else if k = "AWS_SESSION_TOKEN" then "A"
        else if k = "AWS_SECURITY_TOKEN" then "B" else "")
      [("AWS_ACCESS_KEY_ID", "AccessKey"),
       ("AWS_SECRET_ACCESS_KEY", "SecretKey"),
       ("AWS_SECURITY_TOKEN", "SessionToken"),
       ("AWS_SESSION_TOKEN", "SessionToken"),
       ("AWS_DEFAULT_REGION", "Region")] = Except.ok ⟨"AK", "SK", "B", ""⟩ ∧
    ("A" : String) ≠ "B" := by
  refine ⟨?_, by rfl, by rfl, by decide⟩
  simp only [envvarTranslations]
  exact List.Perm.cons _ (List.Perm.cons _ (List.Perm.swap _ _ _))

/-! ## C5: `ToEnvVars` output -/

/-- C5 (amended): `ToEnvVars` returns the `export KEY=VALUE` lines of the
translated environment-variable map, sorted lexicographically and
omitting variables whose value is empty; since `AWS_SECURITY_TOKEN` also
maps to `SessionToken`, the claim's concrete input yields four lines —
the expected three plus `export AWS_SECURITY_TOKEN=ST`. -/
theorem toEnvVars_spec :
    (∀ c : Creds, (Creds.ToEnvVars c).Pairwise (fun a b => strLeB a b = true)) ∧
    (∀ (c : Creds) (s : String), s ∈ Creds.ToEnvVars c ↔
      ∃ kv, kv ∈ envvarTranslations ∧ Creds.toMap c kv.2 ≠ "" ∧
        s = "export " ++ kv.1 ++ "=" ++ Creds.toMap c kv.2) ∧
    Creds.ToEnvVars ⟨"AK", "SK", "ST", ""⟩ =
      ["export AWS_ACCESS_KEY_ID=AK", "export AWS_SECRET_ACCESS_KEY=SK",
       "export AWS_SECURITY_TOKEN=ST", "export AWS_SESSION_TOKEN=ST"] := by
  refine ⟨?_, ?_, by decide⟩
  · intro c
    exact pairwise_sortStrings _
  · intro c s
    unfold Creds.ToEnvVars Creds.Translate
    rw [mem_sortStrings]
    simp only [List.mem_map, List.mem_filter, decide_eq_true_eq]
    constructor
    · rintro ⟨x, ⟨⟨kv, hkv, rfl⟩, hne⟩, rfl⟩
      exact ⟨kv, hkv, hne, rfl⟩
    · rintro ⟨kv, hkv, hne, rfl⟩
      exact ⟨(kv.1, Creds.toMap c kv.2), ⟨⟨kv, hkv, rfl⟩, hne⟩, rfl⟩

/-- C5 counterexample: on the claim's concrete input the result is not
the three-line list the claim states (the `AWS_SECURITY_TOKEN` line is
also present). -/
theorem toEnvVars_extra_security_token :
    Creds.ToEnvVars ⟨"AK", "SK", "ST", ""⟩ ≠
      ["export AWS_ACCESS_KEY_ID=AK", "export AWS_SECRET_ACCESS_KEY=SK",
       "export AWS_SESSION_TOKEN=ST"] := by decide

/-! ## C8: `partition` and the guarded index -/

theorem splitOnColon_ne_nil : ∀ l : List Char, splitOnColon l ≠ []
  | [] => by simp [splitOnColon]
  | c :: rest => by
    unfold splitOnColon
    split_ifs
    · simp
    · rcases h : splitOnColon rest with _ | ⟨hd, tl⟩ <;> simp

theorem splitOnColon_no_colon : ∀ l : List Char, ':' ∉ l → splitOnColon l = [l]
  | [], _ => rfl
  | c :: rest, h => by
    unfold splitOnColon
    rw [if_neg (fun hc => h (by rw [← hc]; exact List.mem_cons_self c rest)),
      splitOnColon_no_colon rest (fun hm => h (List.mem_cons_of_mem c hm))]

theorem splitOnColon_length : ∀ l : List Char, ':' ∈ l → 2 ≤ (splitOnColon l).length
  | [], h => absurd h (List.not_mem_nil _)
  | c :: rest, h => by
    unfold splitOnColon
    split_ifs with hc
    · have hpos := List.length_pos.mpr (splitOnColon_ne_nil rest)
      simp only [List.length_cons]
      omega
    · have hmem : ':' ∈ rest := by
        rcases List.mem_cons.mp h with rfl | hm
        · exact absurd rfl hc
        · exact hm
      have ih := splitOnColon_length rest hmem
      rcases hs : splitOnColon rest with _ | ⟨hd, tl⟩
      · exact absurd hs (splitOnColon_ne_nil rest)
      · rw [hs] at ih
        show 2 ≤ ((c :: hd) :: tl).length
        simp only [List.length_cons] at ih ⊢
        omega

theorem splitOnColon_head : ∀ l : List Char,
    (splitOnColon l).head? = some (l.takeWhile (fun c => decide (c ≠ ':')))
  | [] => rfl
  | c :: rest => by
    unfold splitOnColon
    split_ifs with hc
    · subst hc
      simp [List.takeWhile_cons]
    · rcases hs : splitOnColon rest with _ | ⟨hd, tl⟩
      · exact absurd hs (splitOnColon_ne_nil rest)
      · have ih := splitOnColon_head rest
        rw [hs] at ih
        have ihd : hd = rest.takeWhile (fun c => decide (c ≠ ':')) := by
          simpa using ih
        simp [List.takeWhile_cons, hc, ihd]

theorem splitOnColon_cons_of_ne {c : Char} (hc : ¬ c = ':') (rest : List Char)
    {hd : List Char} {tl : List (List Char)} (hs : splitOnColon rest = hd :: tl) :
    splitOnColon (c :: rest) = (c :: hd) :: tl := by
  simp only [splitOnColon, if_neg hc, hs]

theorem splitOnColon_append (a b : List Char) (h : ':' ∉ a) :
    splitOnColon (a ++ ':' :: b) = a :: splitOnColon b := by
  induction a with
  | nil => simp [splitOnColon]
  | cons c a' ih =>
    have hc : ¬ c = ':' := fun hc => h (by rw [← hc]; exact List.mem_cons_self c _)
    have ih' := ih (fun hm => h (List.mem_cons_of_mem c hm))
    rcases hs : splitOnColon b with _ | ⟨hd, tl⟩
    · exact absurd hs (splitOnColon_ne_nil b)
    · rw [hs] at ih'
      rw [List.cons_append]
      exact splitOnColon_cons_of_ne hc (a' ++ ':' :: b) ih'

/-- C8: `partition` takes element 1 of the caller ARN split on `:`; for
every ARN containing a colon the access is in bounds (the result is
`some`, namely the segment after the first colon), and for an ARN with
no colon the index is out of range (`none`, a panic in the original
code). -/
theorem partition_spec :
    (∀ arn : String, ':' ∈ arn.data → (partitionGo arn).isSome = true) ∧
    (∀ arn : String, ':' ∉ arn.data → partitionGo arn = none) ∧
    (∀ (a b : List Char), ':' ∉ a →
      partitionGo (String.mk (a ++ ':' :: b)) =
        some (String.mk (b.takeWhile (fun c => decide (c ≠ ':'))))) ∧
    partitionGo "arn:aws:iam::111111111111:user/alice" = some "aws" := by
  refine ⟨?_, ?_, ?_, by rfl⟩
  · intro arn h
    have h2 := splitOnColon_length arn.data h
    unfold partitionGo
    rcases hs : splitOnColon arn.data with _ | ⟨x, xs⟩
    · exact absurd hs (splitOnColon_ne_nil _)
    · rcases xs with _ | ⟨y, ys⟩
      · rw [hs] at h2
        simp at h2
      · rfl
  · intro arn h
    unfold partitionGo
    rw [splitOnColon_no_colon arn.data h]
    rfl
  · intro a b h
    unfold partitionGo
    have hdata : (String.mk (a ++ ':' :: b)).data = a ++ ':' :: b := rfl
    rw [hdata, splitOnColon_append a b h]
    rcases hs : splitOnColon b with _ | ⟨x, xs⟩
    · exact absurd hs (splitOnColon_ne_nil _)
    · have hh := splitOnColon_head b
      rw [hs] at hh
      have hx : x = b.takeWhile (fun c => decide (c ≠ ':')) := by simpa using hh
      subst hx
      rfl

/-- C8 witness: `a:b` has a colon and `partition` is defined on it;
`ab` has none and the access is out of range. -/
theorem partition_spec_witness :
    (partitionGo "a:b").isSome = true ∧ partitionGo "ab" = none :=
  ⟨partition_spec.1 "a:b" (by decide), partition_spec.2.1 "ab" (by decide)⟩

/-! ## Supporting lemmas: substring search and first-occurrence replace -/

theorem isPrefixOf_append (l r : List Char) : l.isPrefixOf (l ++ r) = true := by
  rw [ List.isPrefixOf_iff_prefix]
  exact List.prefix_append l r

theorem containsSub_of_isPrefixOf {s pat : List Char} (h : pat.isPrefixOf s = true) :
    containsSub s pat = true := by
  cases s with
  | nil =>
    cases pat with
    | nil => rfl
    | cons x xs => simp [List.isPrefixOf] at h
  | cons c rest => simp [containsSub, h]

theorem containsSub_append (a pat b : List Char) :
    containsSub (a ++ (pat ++ b)) pat = true := by
  induction a with
  | nil => exact containsSub_of_isPrefixOf (isPrefixOf_append pat b)
  | cons c a' ih =>
    rw [List.cons_append]
    have hstep : containsSub (c :: (a' ++ (pat ++ b))) pat =
        (pat.isPrefixOf (c :: (a' ++ (pat ++ b))) || containsSub (a' ++ (pat ++ b)) pat) :=
      rfl
    rw [hstep, ih]
    simp

theorem replaceFirst_of_isPrefixOf {s pat : List Char} (rep : List Char)
    (h : pat.isPrefixOf s = true) :
    replaceFirst s pat rep = rep ++ s.drop pat.length := by
  cases s with
  | nil =>
    have hpat : pat = [] := by
      cases pat with
      | nil => rfl
      | cons x xs => simp [List.isPrefixOf] at h
    subst hpat
    simp [replaceFirst]
  | cons c rest =>
    unfold replaceFirst
    rw [if_pos h]

theorem replaceFirst_first (pat rep : List Char) : ∀ (a b : List Char),
    (∀ i, i < a.length → pat.isPrefixOf ((a ++ (pat ++ b)).drop i) = false) →
    replaceFirst (a ++ (pat ++ b)) pat rep = a ++ (rep ++ b)
  | [], b, _ => by
    rw [List.nil_append, List.nil_append,
      replaceFirst_of_isPrefixOf rep (isPrefixOf_append pat b), List.drop_left]
  | c :: a', b, hmin => by
    have h0 : pat.isPrefixOf (c :: (a' ++ (pat ++ b))) = false := by
      have := hmin 0 (by simp)
      simpa using this
    have hrec := replaceFirst_first pat rep a' b (fun i hi => by
      have := hmin (i + 1) (by simpa using Nat.succ_lt_succ hi)
      simpa using this)
    rw [List.cons_append, List.cons_append]
    have hstep : replaceFirst (c :: (a' ++ (pat ++ b))) pat rep =
        if pat.isPrefixOf (c :: (a' ++ (pat ++ b))) then
          rep ++ (c :: (a' ++ (pat ++ b))).drop pat.length
        else c :: replaceFirst (a' ++ (pat ++ b)) pat rep := rfl
    rw [hstep, if_neg (by simp [h0]), hrec]

theorem replaceFirst_ne_nil : ∀ (s pat rep : List Char), rep ≠ [] →
    containsSub s pat = true → replaceFirst s pat rep ≠ []
  | [], pat, rep, hrep, hc => by
    have hpat : pat = [] := by
      cases pat with
      | nil => rfl
      | cons x xs => simp [containsSub] at hc
    subst hpat
    simpa [replaceFirst, List.isPrefixOf] using hrep
  | c :: rest, pat, rep, hrep, _ => by
    unfold replaceFirst
    split_ifs with h
    · intro hcontra
      rcases List.append_eq_nil.mp hcontra with ⟨h1, -⟩
      exact hrep h1
    · simp

theorem mfaArn_ok_ne_empty {arn v : String} (h : MfaArn arn = Except.ok v) : v ≠ "" := by
  unfold MfaArn at h
  split_ifs at h with hc
  have hv : String.mk (replaceFirst arn.data ":user/".data ":mfa/".data) = v :=
    Except.ok.inj h
  intro hveq
  have hnil : replaceFirst arn.data ":user/".data ":mfa/".data = [] := by
    have := congrArg String.data (hv.trans hveq)
    simpa using this
  exact replaceFirst_ne_nil arn.data ":user/".data ":mfa/".data
    (by decide) hc hnil

/-! ## C6: MFA-ARN derivation from the caller ARN -/

/-- C6: when the caller ARN decomposes as `a ++ ":user/" ++ b` with no
earlier occurrence of `":user/"`, `MfaArn` returns the ARN with that
first occurrence rewritten to `":mfa/"`; when the ARN has no `":user/"`
segment it fails with the non-user error.  The two concrete examples of
the spec are evaluated. -/
theorem mfaArn_spec :
    (∀ (arn : String) (a b : List Char),
      arn.data = a ++ (":user/".data ++ b) →
      (∀ i, i < a.length → ":user/".data.isPrefixOf (arn.data.drop i) = false) →
      MfaArn arn = Except.ok (String.mk (a ++ (":mfa/".data ++ b)))) ∧
    (∀ arn : String, containsSub arn.data ":user/".data = false →
      MfaArn arn = Except.error ("failed to parse MFA ARN for non-user: " ++ arn)) ∧
    MfaArn "arn:aws:iam::111111111111:user/alice" =
      Except.ok "arn:aws:iam::111111111111:mfa/alice" ∧
    MfaArn "arn:aws:iam::111111111111:role/foo" =
      Except.error ("failed to parse MFA ARN for non-user: " ++
        "arn:aws:iam::111111111111:role/foo") := by
  refine ⟨?_, ?_, by rfl, by rfl⟩
  · intro arn a b hdata hmin
    unfold MfaArn
    rw [hdata, if_pos (containsSub_append a ":user/".data b),
      replaceFirst_first ":user/".data ":mfa/".data a b
        (fun i hi => by rw [← hdata]; exact hmin i hi)]
  · intro arn h
    unfold MfaArn
    rw [if_neg (by simp [h])]

/-- C6 witness: `a:user/b` rewrites to `a:mfa/b`; `nouser` fails. -/
theorem mfaArn_spec_witness :
    MfaArn "a:user/b" = Except.ok (String.mk ("a".data ++ (":mfa/".data ++ "b".data))) ∧
    MfaArn "nouser" = Except.error ("failed to parse MFA ARN for non-user: " ++ "nouser") :=
  ⟨mfaArn_spec.1 "a:user/b" "a".data "b".data (by decide) (by decide),
   mfaArn_spec.2.1 "nouser" (by decide)⟩

/-! ## C7: caching of the MFA serial lookup -/

theorem getMfaSerial_cases (lookup : Except String String) (m : Mfa) :
    (m.mfaSerial ≠ "" ∧ Mfa.GetMfaSerial lookup m = (Except.ok m.mfaSerial, m, 0)) ∨
    (m.mfaSerial = "" ∧ ∃ e, lookup = Except.error e ∧
      Mfa.GetMfaSerial lookup m = (Except.error e, { m with mfaSerial := "" }, 1)) ∨
    (m.mfaSerial = "" ∧ ∃ v, lookup = Except.ok v ∧
      Mfa.GetMfaSerial lookup m = (Except.ok v, { m with mfaSerial := v }, 1)) := by
  by_cases hser : m.mfaSerial = ""
  · rcases hl : lookup with e | v
    · refine Or.inr (Or.inl ⟨hser, e, rfl, ?_⟩)
      unfold Mfa.GetMfaSerial
      rw [if_pos hser]
    · refine Or.inr (Or.inr ⟨hser, v, rfl, ?_⟩)
      unfold Mfa.GetMfaSerial
      rw [if_pos hser]
  · refine Or.inl ⟨hser, ?_⟩
    unfold Mfa.GetMfaSerial
    rw [if_neg hser]

/-- C7 (amended): when the first `GetMfaSerial` call succeeds (cache hit
or successful `MfaArn` lookup), a second call with no intervening
`SetMfaSerial` returns the same value, performs no lookup, and the two
calls together perform at most one lookup; if the first call's lookup
fails, the serial stays unset and the second call retries the lookup. -/
theorem getMfaSerial_cached_on_success (m : Mfa) (arn1 arn2 : String)
    (hok : (Mfa.GetMfaSerial (MfaArn arn1) m).1.isOk = true) :
    (Mfa.GetMfaSerial (MfaArn arn2) (Mfa.GetMfaSerial (MfaArn arn1) m).2.1).1 =
      (Mfa.GetMfaSerial (MfaArn arn1) m).1 ∧
    (Mfa.GetMfaSerial (MfaArn arn2) (Mfa.GetMfaSerial (MfaArn arn1) m).2.1).2.2 = 0 ∧
    (Mfa.GetMfaSerial (MfaArn arn1) m).2.2 +
      (Mfa.GetMfaSerial (MfaArn arn2) (Mfa.GetMfaSerial (MfaArn arn1) m).2.1).2.2 ≤ 1 ∧
    (Mfa.GetMfaSerial (MfaArn arn2) (Mfa.GetMfaSerial (MfaArn arn1) m).2.1).2.1 =
      (Mfa.GetMfaSerial (MfaArn arn1) m).2.1 := by
  rcases getMfaSerial_cases (MfaArn arn1) m with ⟨hne, heq⟩ | ⟨hser, e, hl, heq⟩ |
    ⟨hser, v, hl, heq⟩
  · rw [heq]
    rcases getMfaSerial_cases (MfaArn arn2) m with ⟨-, heq2⟩ | ⟨hser2, -⟩ | ⟨hser2, -⟩
    · rw [heq2]
      exact ⟨rfl, rfl, by norm_num, rfl⟩
    · exact absurd hser2 hne
    · exact absurd hser2 hne
  · rw [heq] at hok
    have hfalse : (Except.error e : Except String String).isOk = false := rfl
    rw [hfalse] at hok
    exact Bool.noConfusion hok
  · have hv : v ≠ "" := mfaArn_ok_ne_empty hl
    rw [heq]
    rcases getMfaSerial_cases (MfaArn arn2) { m with mfaSerial := v } with ⟨-, heq2⟩ |
      ⟨hser2, -⟩ | ⟨hser2, -⟩
    · rw [heq2]
      exact ⟨by simp, rfl, by norm_num, rfl⟩
    · exact absurd hser2 (by simpa using hv)
    · exact absurd hser2 (by simpa using hv)

/-- C7 witness: with an empty serial and a user ARN, the first call
looks up once and the second call returns from the cache with no
lookup. -/
theorem getMfaSerial_cached_on_success_witness :
    (Mfa.GetMfaSerial (MfaArn "a:user/b")
        (Mfa.GetMfaSerial (MfaArn "a:user/b") ⟨false, "", ""⟩).2.1).2.2 = 0 ∧
    (Mfa.GetMfaSerial (MfaArn "a:user/b") ⟨false, "", ""⟩).2.2 +
      (Mfa.GetMfaSerial (MfaArn "a:user/b")
        (Mfa.GetMfaSerial (MfaArn "a:user/b") ⟨false, "", ""⟩).2.1).2.2 ≤ 1 :=
  ⟨(getMfaSerial_cached_on_success ⟨false, "", ""⟩ "a:user/b" "a:user/b" (by rfl)).2.1,
   (getMfaSerial_cached_on_success ⟨false, "", ""⟩ "a:user/b" "a:user/b" (by rfl)).2.2.1⟩

/-- C7 counterexample: with an unset serial and a failing identity
lookup, each of two consecutive `GetMfaSerial` calls performs a lookup —
two in total, not at most one. -/
theorem getMfaSerial_retries_after_failure :
    (Mfa.GetMfaSerial (Except.error "no creds") ⟨false, "", ""⟩).2.2 = 1 ∧
    (Mfa.GetMfaSerial (Except.error "no creds")
      (Mfa.GetMfaSerial (Except.error "no creds") ⟨false, "", ""⟩).2.1).2.2 = 1 :=
  ⟨rfl, rfl⟩

end Speculate
